import Mathlib

/-!
# Verification of the Search, Selection & Viewport Controller (`src/app.py`)

Shallow embedding of the controller logic of the NYC Air Rights Explorer:
metric colorizer (`impact_to_color`), zoom heuristic (`zoom_from_span`),
ZIP tokenization and fallback resolution (`parse_zip_tokens`,
`resolve_zip_fallbacks`, `filter_for_zip_mode`), selection
(`select_property` and the map-click / list-locate entry paths), and the
top-10 list ranking.  Numeric cells are modelled exactly (rationals),
with explicit constructors for missing values and IEEE NaN where the
Python code can observe them.
-/

namespace AirRights

/-- A raw numeric cell as it can appear in the dataframe column
`% of New Units Impact`: absent (`None`/pandas NA), an IEEE NaN float,
or an actual numeric value (modelled exactly as a rational). -/
inductive RVal where
  | missing : RVal
  | nan : RVal
  | num : ℚ → RVal
deriving DecidableEq

/-- Models coercing the column to numbers and filling the gaps: missing
and NaN both become `0` (as `pd.to_numeric` plus `fillna(0)` does);
numeric values pass through. -/
def toNumFill0 : RVal → ℚ
  | .missing => 0
  | .nan => 0
  | .num q => q

/-- A Python float observed by `impact_to_color`: either NaN or a real
value (modelled exactly). -/
inductive PyFloat where
  | nan : PyFloat
  | val : ℚ → PyFloat
deriving DecidableEq

/-- Models `float` applied to a cell: it raises (`none`) on a missing
value, keeps NaN, keeps numbers. -/
def pyFloat? : RVal → Option PyFloat
  | .missing => none
  | .nan => some .nan
  | .num q => some (.val q)

/-- Multiplication by a real constant; NaN propagates. -/
def PyFloat.mulC (x : PyFloat) (c : ℚ) : PyFloat :=
  match x with
  | .nan => .nan
  | .val q => .val (q * c)

/-- IEEE `<` against a constant: any comparison with NaN is false. -/
def PyFloat.ltC (x : PyFloat) (c : ℚ) : Bool :=
  match x with
  | .nan => false
  | .val q => decide (q < c)

/-- Geometry as parsed from the GeoJSON of a record: polygon rings or a
multipolygon, coordinates in (lon, lat) order. -/
inductive Geom where
  | polygon : List (List (ℚ × ℚ)) → Geom
  | multiPolygon : List (List (List (ℚ × ℚ))) → Geom
deriving DecidableEq

/-- One dataframe row, restricted to the fields the controller reads. -/
structure Record where
  bbl : Option String
  zipcode : String
  impact : RVal
  geom : Option Geom
deriving DecidableEq

/-- The map viewport `st.session_state.map_center`. -/
structure MapCenter where
  lat : ℚ
  lon : ℚ
  zoom : Int
deriving DecidableEq

/-- View mode: the top-10 list view or the single-property view. -/
inductive ViewMode where
  | top10 : ViewMode
  | single : ViewMode
deriving DecidableEq

/-- The session state touched by selection: `selected_bbl`, `view_mode`,
`map_center`. -/
structure AppState where
  selected_bbl : Option String
  view_mode : ViewMode
  map_center : MapCenter
deriving DecidableEq

/-- Models `str` applied to an optional string: a missing value renders
as the literal placeholder text `None`, exactly as `str` and
`astype(str)` render missing object cells. -/
def strOfOpt : Option String → String
  | none => "None"
  | some s => s

/-- Embeds `impact_to_color` (src/app.py:116): percent buckets over
`pct = float(ratio) * 100`, returning an RGB triple; the `except` branch
(for instance when `float` raises on a missing value) yields the
fallback gray. -/
def impact_to_color (impact_ratio : RVal) : List Nat :=
  match pyFloat? impact_ratio with
  | none => [200, 200, 200]
  | some x =>
    let pct := x.mulC 100
    if pct.ltC 1 then [200, 200, 200]
    else if pct.ltC 30 then [0, 170, 0]
    else if pct.ltC 60 then [245, 200, 0]
    else if pct.ltC 100 then [255, 140, 0]
    else if pct.ltC 150 then [255, 90, 90]
    else [180, 0, 0]

/-- Severity index of each bucket color (gray 0 … deep red 5), used to
state monotonicity of the bucket assignment. -/
def colorRank (c : List Nat) : Nat :=
  if c = [200, 200, 200] then 0
  else if c = [0, 170, 0] then 1
  else if c = [245, 200, 0] then 2
  else if c = [255, 140, 0] then 3
  else if c = [255, 90, 90] then 4
  else if c = [180, 0, 0] then 5
  else 0

/-- Embeds `zoom_from_span` (src/app.py:248): heuristic zoom from a
coordinate span in degrees. -/
def zoom_from_span (span : ℚ) : Int :=
  if span ≤ 1/100 then 16
  else if span ≤ 3/100 then 15
  else if span ≤ 6/100 then 14
  else if span ≤ 12/100 then 13
  else if span ≤ 1/4 then 12
  else 11

/-- Embeds `get_geojson_center` (src/app.py:99): first coordinate of the
first ring (first polygon for a multipolygon), returned as (lat, lon);
any failure (missing value, empty coordinate lists) yields `none`. -/
def get_geojson_center : Option Geom → Option (ℚ × ℚ)
  | some (.polygon rings) =>
    match rings with
    | (p :: _) :: _ => some (p.2, p.1)
    | _ => none
  | some (.multiPolygon polys) =>
    match polys with
    | ((p :: _) :: _) :: _ => some (p.2, p.1)
    | _ => none
  | none => none

/-- Embeds `select_property` (src/app.py:203): the single source of truth
for selecting a property.  It reads the BBL of the row through `str` of
`safe_get`; it bails out when that string is empty or is one of the
placeholder texts `None` and `N/A`; otherwise it records the selection,
switches to single view and, when the geometry yields a center, moves
the viewport there at zoom 16. -/
def select_property (row : Record) (s : AppState) : AppState :=
  let bbl := strOfOpt row.bbl
  if bbl = "" ∨ bbl = "None" ∨ bbl = "N/A" then s
  else
    let s1 : AppState := { s with selected_bbl := some bbl, view_mode := .single }
    match get_geojson_center row.geom with
    | some c => { s1 with map_center := { lat := c.1, lon := c.2, zoom := 16 } }
    | none => s1

/-- Embeds the map-click handler (src/app.py:648-658), starting from the
BBL extracted by `extract_clicked_bbl`: if a BBL was clicked, look up
the first row of the full dataset whose rendered BBL equals the clicked
one and pass that row to `select_property`. -/
def mapClickPath (records : List Record) (clickedBbl : Option String)
    (s : AppState) : AppState :=
  match clickedBbl with
  | none => s
  | some b =>
    match records.find? (fun r => strOfOpt r.bbl = b) with
    | some r => select_property r s
    | none => s

/-- Embeds the locate-on-map button handler of the list
(src/app.py:781-783): the row is at hand and is passed to
`select_property` directly. -/
def listLocatePath (row : Record) (s : AppState) : AppState :=
  select_property row s

/-- Models dropping duplicates while keeping the first occurrence of
each element, as `dict.fromkeys` does (auxiliary recursion over a
seen-set). -/
def dedupAux (seen : List String) : List String → List String
  | [] => []
  | x :: xs => if x ∈ seen then dedupAux seen xs else x :: dedupAux (x :: seen) xs

/-- Models `dict.fromkeys` based deduplication on a string list. -/
def dedupFirst (l : List String) : List String := dedupAux [] l

/-- Models Python dict assignment of value `v` at key `k` on a dict kept
as an insertion ordered association list: overwrite in place or
append. -/
def dictInsert {α : Type} (k : String) (v : α) :
    List (String × α) → List (String × α)
  | [] => [(k, v)]
  | p :: ps => if p.1 = k then (k, v) :: ps else p :: dictInsert k v ps

/-- Keeps exactly the digit characters of a token, in order, as the
join-of-filtered-characters expression in the source does. -/
def digitsOnly (t : String) : String :=
  String.mk (t.toList.filter Char.isDigit)

/-- Python `str.split()` with no separator, over the character list:
runs of whitespace separate words, empty pieces are dropped. -/
def wordsAux (acc : List Char) : List Char → List String
  | [] => if acc.isEmpty then [] else [String.mk acc.reverse]
  | c :: cs =>
    if c.isWhitespace then
      if acc.isEmpty then wordsAux [] cs
      else String.mk acc.reverse :: wordsAux [] cs
    else wordsAux (c :: acc) cs

/-- Models replacing commas by spaces and then splitting with no
separator: commas become spaces, then the string is split on whitespace
runs. -/
def pySplitTokens (q : String) : List String :=
  wordsAux [] (q.toList.map (fun c => if c = (',') then (' ') else c))

/-- The loop body of `parse_zip_tokens`: keep the digit characters of a
raw token and accept it only when exactly 5 digits remain. -/
def keep5 (t : String) : Option String :=
  let d := digitsOnly t
  if d.length = 5 then some d else none

/-- Embeds `parse_zip_tokens` (src/app.py:290): replace commas by
spaces, split on whitespace, keep the digit characters of each token,
keep tokens with exactly 5 digits, and drop duplicates preserving
first-seen order. -/
def parse_zip_tokens (q : String) : List String :=
  dedupFirst ((pySplitTokens q).filterMap keep5)

/-- Models `int` applied to a digit-only ZIP token (decimal value of the
digit characters; every token this embedding feeds in is digit-only). -/
def zipInt (z : String) : Int :=
  (z.toList.foldl (fun n c => 10 * n + (c.toNat - (('0')).toNat)) 0 : Nat)

/-- Models `np.argmin`: index of the first occurrence of the minimum. -/
def argminD : List Int → Nat
  | [] => 0
  | [_] => 0
  | x :: y :: rest =>
    if (y :: rest).getD (argminD (y :: rest)) 0 < x then argminD (y :: rest) + 1
    else 0

/-- Models indexing the sorted available list at the argmin of absolute
integer differences: the available ZIP whose integer value is
numerically closest to `z`, first occurrence (hence, in a sorted list,
smallest value) on ties. -/
def nearestZip (avail : List String) (z : String) : String :=
  avail.getD (argminD (avail.map (fun a => |zipInt a - zipInt z|))) (String.mk [])

/-- The loop body of `resolve_zip_fallbacks`: append the nearest
available ZIP and record the replacement when it differs from the
request. -/
def resolveStep (avail : List String)
    (acc : List String × List (String × Option String)) (z : String) :
    List String × List (String × Option String) :=
  (acc.1 ++ [nearestZip avail z],
   if nearestZip avail z ≠ z then dictInsert z (some (nearestZip avail z)) acc.2
   else acc.2)

/-- Embeds `resolve_zip_fallbacks` (src/app.py:311): map every requested
ZIP to its numerically nearest available ZIP, recording in the replaced
dict those that changed; dedupe the resolved list preserving order.  If
nothing is available, return no ZIPs and map every request to a missing
substitute. -/
def resolve_zip_fallbacks (requested : List String) (avail : List String) :
    List String × List (String × Option String) :=
  if avail.isEmpty then
    ([], requested.foldl (fun acc z => dictInsert z none acc) [])
  else
    let r := requested.foldl (resolveStep avail) ([], [])
    (dedupFirst r.1, r.2)

/-- Models zero-filling to width 5 for the strings at hand: left pad
with zeros to length 5. -/
def zfill5 (s : String) : String :=
  if 5 ≤ s.length then s
  else String.mk (List.replicate (5 - s.length) ('0')) ++ s

/-- Computes the per-row `ZipcodeStr` column: the rendered zipcode, zero
filled to 5 characters. -/
def zipcodeStr (r : Record) : String := zfill5 r.zipcode

/-- Computes the per-row `ImpactRatio` column: the impact cell coerced
to a number with missing values filled by 0. -/
def impactNum (r : Record) : ℚ := toNumFill0 r.impact

/-- The 1% display floor, `0.01` (stated as the exact rational). -/
def floorRatio : ℚ := mkRat 1 100

/-- Decides whether the impact ratio is at least 0.01: the row counts as
colored (at or above the one percent display floor). -/
def isColored (r : Record) : Bool := decide (floorRatio ≤ impactNum r)

/-- Lexicographic (code point) order on character lists, as Python
compares strings. -/
def charListLe : List Char → List Char → Bool
  | [], _ => true
  | _ :: _, [] => false
  | x :: xs, y :: ys =>
    if x.toNat < y.toNat then true
    else if y.toNat < x.toNat then false
    else charListLe xs ys

/-- Lexicographic (code point) order on strings. -/
def strLe (a b : String) : Bool := charListLe a.toList b.toList

/-- Insertion step of the string sort. -/
def insertStr (x : String) : List String → List String
  | [] => [x]
  | y :: ys => if strLe x y then x :: y :: ys else y :: insertStr x ys

/-- Models the builtin string sort (lexicographic; on equal-length digit
strings this coincides with numeric order). -/
def sortStrings : List String → List String
  | [] => []
  | x :: xs => insertStr x (sortStrings xs)

/-- Computes the sorted unique list of all ZIP strings of the
dataset. -/
def availableZips (df : List Record) : List String :=
  sortStrings (dedupFirst (df.map zipcodeStr))

/-- Computes the sorted unique list of ZIP strings having at least one
row at or above the display floor. -/
def coloredZips (df : List Record) : List String :=
  sortStrings (dedupFirst ((df.filter isColored).map zipcodeStr))

/-- The stage-2 loop body of `filter_for_zip_mode` (src/app.py:363-377):
skip resolved ZIPs with no rows; keep a ZIP with a colored row; keep it
as well when no colored ZIP exists anywhere; otherwise substitute the
nearest colored ZIP, recording the replacement. -/
def zipStage2Step (df : List Record) (colored : List String)
    (acc : List String × List (String × String)) (z : String) :
    List String × List (String × String) :=
  let inZip := df.filter (fun r => zipcodeStr r = z)
  if inZip.isEmpty then acc
  else if inZip.any isColored then (acc.1 ++ [z], acc.2)
  else if colored.isEmpty then (acc.1 ++ [z], acc.2)
  else
    let best := nearestZip colored z
    (acc.1 ++ [best], dictInsert z best acc.2)

/-- Embeds `filter_for_zip_mode` (src/app.py:337): two-stage ZIP
resolution plus filtering; returns the filtered rows and the
human-readable fallback notices. -/
def filter_for_zip_mode (df : List Record) (requestedZips : List String) :
    List Record × List String :=
  let available := availableZips df
  let colored := coloredZips df
  let r1 := resolve_zip_fallbacks requestedZips available
  let loop := r1.1.foldl (zipStage2Step df colored) ([], [])
  let finalZips := dedupFirst loop.1
  let items1 := r1.2.filterMap (fun p => p.2.map (fun v => p.1 ++ (" → ") ++ v))
  let notices1 : List String :=
    if r1.2.isEmpty then []
    else if items1.isEmpty then []
    else [("ZIP not found. Using closest available ZIP instead: ") ++
      String.intercalate (", ") items1]
  let items2 := loop.2.map (fun p => p.1 ++ (" → ") ++ p.2)
  let notices2 : List String :=
    if loop.2.isEmpty then []
    else [("ZIP found but no colored properties (<1%). Using closest ZIP with colored properties: ") ++
      String.intercalate (", ") items2]
  let notices := notices1 ++ notices2
  if finalZips.isEmpty then ([], notices)
  else (df.filter (fun r => finalZips.contains (zipcodeStr r)), notices)

/-- Computes the sort key of the property list: the impact column
coerced to numbers with missing values filled by 0. -/
def impactKey (r : Record) : ℚ := toNumFill0 r.impact

/-- Stable descending insertion: a new row goes in front of the first
row whose key does not exceed its own, so earlier rows stay ahead of
later rows with equal keys. -/
def insertDesc (x : Record) : List Record → List Record
  | [] => [x]
  | y :: ys => if impactKey y ≤ impactKey x then x :: y :: ys else y :: insertDesc x ys

/-- Models sorting the rows by the impact column in descending order: a
stable sort, descending by the impact metric. -/
def sortDesc : List Record → List Record
  | [] => []
  | x :: xs => insertDesc x (sortDesc xs)

/-- The top-10 ranking (src/app.py:758-759): stable descending sort by
impact, then `head(n)`. -/
def rankTop (records : List Record) (n : Nat) : List Record :=
  (sortDesc records).take n

/-- The minimum value located by `argminD` (with default 0). -/
def minvalD (l : List Int) : Int := l.getD (argminD l) 0

/-- A small concrete dataset used to evaluate the ZIP pipeline: ZIPs
10001 (50% impact) and 10027 (90%) are colored; 10002 (0.5%) is below
the 1% floor. -/
def exampleDf : List Record :=
  [⟨some ("1"), "10001", RVal.num (mkRat 1 2), none⟩,
   ⟨some ("2"), "10002", RVal.num (mkRat 1 200), none⟩,
   ⟨some ("3"), "10027", RVal.num (mkRat 9 10), none⟩]

/-! ## Helper lemmas -/

theorem mem_dedupAux {x : String} :
    ∀ (l seen : List String), x ∈ dedupAux seen l ↔ x ∈ l ∧ x ∉ seen := by
  intro l
  induction l with
  | nil => intro seen; simp [dedupAux]
  | cons a t ih =>
    intro seen
    by_cases ha : a ∈ seen
    · rw [dedupAux, if_pos ha, ih]
      constructor
      · rintro ⟨hx, hs⟩
        exact ⟨List.mem_cons_of_mem _ hx, hs⟩
      · rintro ⟨hx, hs⟩
        rcases List.mem_cons.mp hx with rfl | hx
        · exact absurd ha hs
        · exact ⟨hx, hs⟩
    · rw [dedupAux, if_neg ha]
      constructor
      · intro hmem
        rcases List.mem_cons.mp hmem with rfl | hmem2
        · exact ⟨List.mem_cons_self _ _, ha⟩
        · have h2 := (ih (a :: seen)).mp hmem2
          exact ⟨List.mem_cons_of_mem _ h2.1,
            fun hm => h2.2 (List.mem_cons_of_mem _ hm)⟩
      · rintro ⟨hx, hs⟩
        rcases List.mem_cons.mp hx with rfl | hx2
        · exact List.mem_cons_self _ _
        · by_cases hxa : x = a
          · subst hxa; exact List.mem_cons_self _ _
          · refine List.mem_cons_of_mem _ ((ih (a :: seen)).mpr ⟨hx2, ?_⟩)
            intro hm
            rcases List.mem_cons.mp hm with h | h
            · exact hxa h
            · exact hs h

theorem mem_dedupFirst {x : String} {l : List String} :
    x ∈ dedupFirst l ↔ x ∈ l := by
  rw [dedupFirst, mem_dedupAux]
  simp

theorem dedupAux_nodup : ∀ (l seen : List String), (dedupAux seen l).Nodup := by
  intro l
  induction l with
  | nil => intro seen; simp [dedupAux]
  | cons a t ih =>
    intro seen
    by_cases ha : a ∈ seen
    · rw [dedupAux, if_pos ha]; exact ih seen
    · rw [dedupAux, if_neg ha]
      refine List.nodup_cons.mpr ⟨?_, ih (a :: seen)⟩
      intro hmem
      exact ((mem_dedupAux _ _).mp hmem).2 (List.mem_cons_self _ _)

theorem dedupFirst_nodup (l : List String) : (dedupFirst l).Nodup :=
  dedupAux_nodup l []

theorem dedupFirst_eq_nil_iff {l : List String} : dedupFirst l = [] ↔ l = [] := by
  cases l with
  | nil => simp [dedupFirst, dedupAux]
  | cons a t =>
    simp only [dedupFirst, dedupAux, List.mem_nil_iff, if_neg (List.not_mem_nil a)]
    constructor
    · intro h; cases h
    · intro h; cases h

/-! ## argmin / nearest-ZIP lemmas -/

theorem getD_eq_get {α : Type} (d : α) :
    ∀ (l : List α) (i : Nat) (h : i < l.length), l.getD i d = l.get ⟨i, h⟩ := by
  intro l
  induction l with
  | nil => intro i h; simp at h
  | cons a t ih =>
    intro i h
    cases i with
    | zero => rfl
    | succ j =>
      simp only [List.getD_cons_succ]
      exact ih j (Nat.lt_of_succ_lt_succ h)

theorem argminD_lt_length : ∀ l : List Int, l ≠ [] → argminD l < l.length := by
  intro l
  induction l with
  | nil => intro h; exact absurd rfl h
  | cons x xs ih =>
    intro _
    cases xs with
    | nil => simp [argminD]
    | cons y rest =>
      rw [argminD]
      split_ifs with h
      · have h2 := ih (List.cons_ne_nil y rest)
        simp only [List.length_cons] at h2 ⊢
        omega
      · simp

theorem minvalD_le : ∀ (l : List Int) (i : Nat), i < l.length →
    minvalD l ≤ l.getD i 0 := by
  intro l
  induction l with
  | nil => intro i h; simp at h
  | cons x xs ih =>
    intro i hi
    cases xs with
    | nil =>
      have h0 : i = 0 := by
        simp only [List.length_cons, List.length_nil] at hi
        omega
      subst h0
      simp [minvalD, argminD]
    | cons y rest =>
      rw [minvalD, argminD]
      split_ifs with h
      · rw [List.getD_cons_succ]
        cases i with
        | zero => rw [List.getD_cons_zero]; exact le_of_lt h
        | succ j =>
          rw [List.getD_cons_succ]
          have h2 := ih j (Nat.lt_of_succ_lt_succ hi)
          rwa [minvalD] at h2
      · rw [List.getD_cons_zero]
        cases i with
        | zero => rw [List.getD_cons_zero]
        | succ j =>
          rw [List.getD_cons_succ]
          have h2 := ih j (Nat.lt_of_succ_lt_succ hi)
          rw [minvalD] at h2
          exact le_trans (not_lt.mp h) h2

theorem argminD_first : ∀ (l : List Int) (i : Nat), i < argminD l →
    minvalD l < l.getD i 0 := by
  intro l
  induction l with
  | nil => intro i h; simp [argminD] at h
  | cons x xs ih =>
    intro i hi
    cases xs with
    | nil => simp [argminD] at hi
    | cons y rest =>
      by_cases h : (y :: rest).getD (argminD (y :: rest)) 0 < x
      · rw [argminD, if_pos h] at hi
        rw [minvalD, argminD, if_pos h, List.getD_cons_succ]
        cases i with
        | zero => rw [List.getD_cons_zero]; exact h
        | succ j =>
          rw [List.getD_cons_succ]
          have h2 := ih j (Nat.lt_of_succ_lt_succ hi)
          rwa [minvalD] at h2
      · rw [argminD, if_neg h] at hi
        exact absurd hi (Nat.not_lt_zero i)

theorem getD_map_dist (f : String → Int) :
    ∀ (l : List String) (i : Nat), i < l.length →
      (l.map f).getD i 0 = f (l.getD i (String.mk [])) := by
  intro l
  induction l with
  | nil => intro i h; simp at h
  | cons a t ih =>
    intro i hi
    cases i with
    | zero => rfl
    | succ j =>
      simp only [List.map_cons, List.getD_cons_succ]
      exact ih j (Nat.lt_of_succ_lt_succ hi)

theorem map_dist_ne_nil {avail : List String} (h : avail ≠ [])
    (f : String → Int) : avail.map f ≠ [] := by
  cases avail with
  | nil => exact absurd rfl h
  | cons a t => simp

theorem nearestZip_idx_lt (avail : List String) (z : String) (h : avail ≠ []) :
    argminD (avail.map (fun a => |zipInt a - zipInt z|)) < avail.length := by
  have h2 := argminD_lt_length _ (map_dist_ne_nil h (fun a => |zipInt a - zipInt z|))
  rwa [List.length_map] at h2

theorem nearestZip_mem (avail : List String) (z : String) (h : avail ≠ []) :
    nearestZip avail z ∈ avail := by
  rw [nearestZip]
  rw [getD_eq_get _ _ _ (nearestZip_idx_lt avail z h)]
  exact List.get_mem _ _ _

theorem nearestZip_dist_eq_minval (avail : List String) (z : String) (h : avail ≠ []) :
    |zipInt (nearestZip avail z) - zipInt z| =
      minvalD (avail.map (fun a => |zipInt a - zipInt z|)) := by
  rw [nearestZip, minvalD, getD_map_dist _ _ _ (nearestZip_idx_lt avail z h)]

theorem nearestZip_minimal (avail : List String) (z : String) (h : avail ≠ []) :
    ∀ a ∈ avail, |zipInt (nearestZip avail z) - zipInt z| ≤ |zipInt a - zipInt z| := by
  intro a ha
  obtain ⟨⟨i, hi⟩, hget⟩ := List.mem_iff_get.mp ha
  have hR : (avail.map (fun a => |zipInt a - zipInt z|)).getD i 0 =
      |zipInt a - zipInt z| := by
    rw [getD_map_dist _ _ _ hi, getD_eq_get _ _ _ hi, hget]
  rw [nearestZip_dist_eq_minval avail z h, ← hR]
  exact minvalD_le _ i (by rwa [List.length_map])

theorem nearestZip_tiebreak (avail : List String) (z : String) (h : avail ≠ [])
    (hsorted : avail.Pairwise (fun a b => zipInt a ≤ zipInt b)) :
    ∀ a ∈ avail, |zipInt a - zipInt z| = |zipInt (nearestZip avail z) - zipInt z| →
      zipInt (nearestZip avail z) ≤ zipInt a := by
  intro a ha heq
  obtain ⟨⟨i, hi⟩, hget⟩ := List.mem_iff_get.mp ha
  have hR : (avail.map (fun a => |zipInt a - zipInt z|)).getD i 0 =
      |zipInt a - zipInt z| := by
    rw [getD_map_dist _ _ _ hi, getD_eq_get _ _ _ hi, hget]
  have hidx := nearestZip_idx_lt avail z h
  rcases Nat.lt_trichotomy i (argminD (avail.map (fun a => |zipInt a - zipInt z|))) with
    hlt | heqi | hgt
  · exfalso
    have h2 := argminD_first _ i hlt
    rw [hR, heq, nearestZip_dist_eq_minval avail z h] at h2
    exact lt_irrefl _ h2
  · have : nearestZip avail z = a := by
      rw [nearestZip, getD_eq_get _ _ _ hidx, ← hget]
      congr 1
      exact (Fin.ext heqi.symm)
    rw [this]
  · have hbest : nearestZip avail z = avail.get ⟨_, hidx⟩ := by
      rw [nearestZip, getD_eq_get _ _ _ hidx]
    rw [hbest, ← hget]
    exact (List.pairwise_iff_get.mp hsorted) ⟨_, hidx⟩ ⟨i, hi⟩ hgt

theorem nearestZip_self (avail : List String) (z : String) (hz : z ∈ avail)
    (hnodup : (avail.map zipInt).Nodup) : nearestZip avail z = z := by
  have hne : avail ≠ [] := List.ne_nil_of_mem hz
  have hmin := nearestZip_minimal avail z hne z hz
  rw [sub_self, abs_zero] at hmin
  have h0 : zipInt (nearestZip avail z) = zipInt z := by
    have h1 := le_antisymm hmin (abs_nonneg _)
    have h2 := abs_eq_zero.mp h1
    linarith [sub_eq_zero.mp h2]
  exact List.inj_on_of_nodup_map hnodup (nearestZip_mem avail z hne) hz h0

theorem resolve_self (avail : List String) (z : String) (hz : z ∈ avail)
    (hnodup : (avail.map zipInt).Nodup) :
    resolve_zip_fallbacks [z] avail = ([z], []) := by
  have hbest := nearestZip_self avail z hz hnodup
  cases avail with
  | nil => exact absurd hz (List.not_mem_nil z)
  | cons a t =>
    simp [resolve_zip_fallbacks, resolveStep, hbest, dedupFirst, dedupAux]

/-! ## C2: availability fallback resolves to the nearest available ZIP -/

/-- C2: for a requested ZIP absent from a non-empty (sorted) available
set, resolution substitutes the available ZIP with the smallest absolute
integer distance, breaking ties toward the smaller ZIP value, and
records the replacement; in particular the request 10099 resolves to
10027 among the available ZIPs 10001, 10002 and 10027. -/
theorem resolve_zip_nearest_fallback :
    (∀ (avail : List String) (z : String),
      avail ≠ [] →
      avail.Pairwise (fun a b => zipInt a ≤ zipInt b) →
      z ∉ avail →
      (resolve_zip_fallbacks [z] avail =
        ([nearestZip avail z], [(z, some (nearestZip avail z))]) ∧
       nearestZip avail z ∈ avail ∧
       (∀ a ∈ avail, |zipInt (nearestZip avail z) - zipInt z| ≤ |zipInt a - zipInt z|) ∧
       (∀ a ∈ avail, |zipInt a - zipInt z| = |zipInt (nearestZip avail z) - zipInt z| →
         zipInt (nearestZip avail z) ≤ zipInt a))) ∧
    resolve_zip_fallbacks ["10099"] ["10001", "10002", "10027"] =
      (["10027"], [("10099", some ("10027"))]) := by
  constructor
  · intro avail z hne hsorted hnotin
    have hbm := nearestZip_mem avail z hne
    have hneq : nearestZip avail z ≠ z := fun hcon => hnotin (hcon ▸ hbm)
    refine ⟨?_, hbm, nearestZip_minimal avail z hne,
      nearestZip_tiebreak avail z hne hsorted⟩
    cases avail with
    | nil => exact absurd rfl hne
    | cons a t =>
      simp [resolve_zip_fallbacks, resolveStep, hneq, dictInsert, dedupFirst, dedupAux]
  · decide

/-- Witness for C2: the general fallback statement applied to the
concrete available ZIPs 10001, 10002 and 10027 and the request 10099. -/
theorem resolve_zip_nearest_fallback_witness :
    (["10001", "10002", "10027"] : List String) ≠ [] ∧
    (["10001", "10002", "10027"] : List String).Pairwise
      (fun a b => zipInt a ≤ zipInt b) ∧
    ("10099" ∉ (["10001", "10002", "10027"] : List String)) ∧
    (resolve_zip_fallbacks ["10099"] ["10001", "10002", "10027"] =
      ([nearestZip ["10001", "10002", "10027"] ("10099")],
       [("10099", some (nearestZip ["10001", "10002", "10027"] ("10099")))]) ∧
     nearestZip ["10001", "10002", "10027"] ("10099") ∈
       (["10001", "10002", "10027"] : List String) ∧
     (∀ a ∈ (["10001", "10002", "10027"] : List String),
       |zipInt (nearestZip ["10001", "10002", "10027"] ("10099")) - zipInt ("10099")| ≤
         |zipInt a - zipInt ("10099")|) ∧
     (∀ a ∈ (["10001", "10002", "10027"] : List String),
       |zipInt a - zipInt ("10099")| =
         |zipInt (nearestZip ["10001", "10002", "10027"] ("10099")) - zipInt ("10099")| →
       zipInt (nearestZip ["10001", "10002", "10027"] ("10099")) ≤ zipInt a)) :=
  ⟨by decide, by decide, by decide,
   resolve_zip_nearest_fallback.1 ["10001", "10002", "10027"] ("10099")
     (by decide) (by decide) (by decide)⟩

/-! ## Membership lemmas for the ZIP pools -/

theorem insertStr_perm (x : String) (l : List String) :
    (insertStr x l).Perm (x :: l) := by
  induction l with
  | nil => rfl
  | cons y ys ih =>
    rw [insertStr]
    split_ifs
    · exact List.Perm.refl _
    · exact (List.Perm.cons y ih).trans (List.Perm.swap x y ys)

theorem sortStrings_perm (l : List String) : (sortStrings l).Perm l := by
  induction l with
  | nil => rfl
  | cons x xs ih =>
    rw [sortStrings]
    exact (insertStr_perm x (sortStrings xs)).trans (List.Perm.cons x ih)

theorem mem_sortStrings {x : String} {l : List String} :
    x ∈ sortStrings l ↔ x ∈ l :=
  (sortStrings_perm l).mem_iff

theorem mem_availableZips {df : List Record} {z : String} :
    z ∈ availableZips df ↔ ∃ r ∈ df, zipcodeStr r = z := by
  rw [availableZips, mem_sortStrings, mem_dedupFirst]
  simp [List.mem_map]

theorem mem_coloredZips {df : List Record} {z : String} :
    z ∈ coloredZips df ↔ ∃ r ∈ df, isColored r = true ∧ zipcodeStr r = z := by
  rw [coloredZips, mem_sortStrings, mem_dedupFirst]
  constructor
  · intro h
    rcases List.mem_map.mp h with ⟨r, hr, hzr⟩
    rcases List.mem_filter.mp hr with ⟨hrdf, hcol⟩
    exact ⟨r, hrdf, hcol, hzr⟩
  · rintro ⟨r, hrdf, hcol, hzr⟩
    exact List.mem_map.mpr ⟨r, List.mem_filter.mpr ⟨hrdf, hcol⟩, hzr⟩

theorem contains_singleton_fun (z : String) :
    (fun (r : Record) => (([z] : List String).contains (zipcodeStr r))) =
      (fun (r : Record) => decide (zipcodeStr r = z)) := by
  funext r
  simp [List.contains]

/-! ## C3: signal fallback -/

/-- C3: for a ZIP present in the dataset (with distinct ZIP integer
values): if it has a colored record, zip-mode filtering keeps it
unchanged and emits no notice; if all its records are below the 1%
floor, then with no colored ZIP anywhere it is kept unchanged, and with
some colored ZIP available it is replaced by the colored ZIP with the
smallest absolute integer distance. -/
theorem filter_zip_signal_fallback (df : List Record) (z : String)
    (hz : z ∈ availableZips df)
    (hnodup : ((availableZips df).map zipInt).Nodup) :
    ((∃ r ∈ df, zipcodeStr r = z ∧ isColored r = true) →
      filter_for_zip_mode df [z] = (df.filter (fun r => zipcodeStr r = z), [])) ∧
    ((∀ r ∈ df, zipcodeStr r = z → isColored r = false) →
      (coloredZips df = [] →
        filter_for_zip_mode df [z] = (df.filter (fun r => zipcodeStr r = z), [])) ∧
      (coloredZips df ≠ [] →
        (filter_for_zip_mode df [z]).1 =
          df.filter (fun r => zipcodeStr r = nearestZip (coloredZips df) z) ∧
        nearestZip (coloredZips df) z ∈ coloredZips df ∧
        (∀ c ∈ coloredZips df,
          |zipInt (nearestZip (coloredZips df) z) - zipInt z| ≤
            |zipInt c - zipInt z|))) := by
  have hres := resolve_self _ _ hz hnodup
  obtain ⟨r0, hr0, hz0⟩ := mem_availableZips.mp hz
  have hr0f : r0 ∈ df.filter (fun r => zipcodeStr r = z) :=
    List.mem_filter.mpr ⟨hr0, by simp [hz0]⟩
  have hinne : (df.filter (fun r => zipcodeStr r = z)).isEmpty = false := by
    rw [List.isEmpty_eq_false]
    exact List.ne_nil_of_mem hr0f
  constructor
  · rintro ⟨r, hr, hzr, hcol⟩
    have hany : (df.filter (fun r => zipcodeStr r = z)).any isColored = true :=
      List.any_eq_true.mpr ⟨r, List.mem_filter.mpr ⟨hr, by simp [hzr]⟩, hcol⟩
    rw [filter_for_zip_mode]
    simp only [hres, List.foldl_cons, List.foldl_nil, zipStage2Step, hinne, hany,
      Bool.false_eq_true, if_false, if_true, List.nil_append, dedupFirst, dedupAux,
      List.not_mem_nil, if_neg, List.isEmpty_nil, List.isEmpty_cons, ite_true,
      ite_false, List.append_nil, contains_singleton_fun]
  · intro hnone
    have hany : (df.filter (fun r => zipcodeStr r = z)).any isColored = false := by
      rw [List.any_eq_false]
      intro r hrf
      rcases List.mem_filter.mp hrf with ⟨hrdf, hbeq⟩
      rw [hnone r hrdf (by simpa using hbeq)]
      simp
    constructor
    · intro hcol
      rw [filter_for_zip_mode]
      simp only [hres, List.foldl_cons, List.foldl_nil, zipStage2Step, hinne, hany,
        hcol, Bool.false_eq_true, if_false, if_true, List.nil_append, dedupFirst,
        dedupAux, List.not_mem_nil, if_neg, List.isEmpty_nil, List.isEmpty_cons,
        ite_true, ite_false, List.append_nil, contains_singleton_fun]
    · intro hcolne
      have hcole : (coloredZips df).isEmpty = false := by
        rw [List.isEmpty_eq_false]
        exact hcolne
      refine ⟨?_, nearestZip_mem _ _ hcolne, nearestZip_minimal _ _ hcolne⟩
      rw [filter_for_zip_mode]
      simp only [hres, List.foldl_cons, List.foldl_nil, zipStage2Step, hinne, hany,
        hcole, Bool.false_eq_true, if_false, if_true, List.nil_append, dictInsert,
        dedupFirst, dedupAux, List.not_mem_nil, if_neg, List.isEmpty_nil,
        List.isEmpty_cons, ite_true, ite_false, List.append_nil,
        contains_singleton_fun]

/-- Witness for C3: the signal-fallback statement applied to the
concrete dataset (ZIPs 10001 and 10027 colored, 10002 all-gray) at the
present-and-colored ZIP 10001. -/
theorem filter_zip_signal_fallback_witness :
    ("10001" ∈ availableZips exampleDf) ∧
    (((availableZips exampleDf).map zipInt).Nodup) ∧
    (∃ r ∈ exampleDf, zipcodeStr r = "10001" ∧ isColored r = true) ∧
    filter_for_zip_mode exampleDf ["10001"] =
      (exampleDf.filter (fun r => zipcodeStr r = "10001"), []) :=
  ⟨by decide, by decide, by decide,
   (filter_zip_signal_fallback exampleDf ("10001") (by decide) (by decide)).1
     (by decide)⟩

/-! ## Fold characterizations of the two resolution stages -/

theorem dictInsert_append {α : Type} (k : String) (v : α) :
    ∀ l : List (String × α), (∀ p ∈ l, p.1 ≠ k) → dictInsert k v l = l ++ [(k, v)] := by
  intro l
  induction l with
  | nil => intro _; rfl
  | cons p ps ih =>
    intro h
    rw [dictInsert, if_neg (h p (List.mem_cons_self _ _)),
      ih (fun q hq => h q (List.mem_cons_of_mem _ hq))]
    rfl

theorem resolve_fold_fst (avail : List String) :
    ∀ (req : List String) (acc : List String × List (String × Option String)),
      (req.foldl (resolveStep avail) acc).1 =
        acc.1 ++ req.map (fun z => nearestZip avail z) := by
  intro req
  induction req with
  | nil => intro acc; simp
  | cons z rest ih =>
    intro acc
    rw [List.foldl_cons, ih]
    simp [resolveStep]

theorem resolve_fold_snd (avail : List String) :
    ∀ (req : List String) (acc1 : List String) (acc2 : List (String × Option String)),
      req.Nodup → (∀ p ∈ acc2, p.1 ∉ req) →
      (req.foldl (resolveStep avail) (acc1, acc2)).2 =
        acc2 ++ (req.filter (fun z => nearestZip avail z ≠ z)).map
          (fun z => (z, some (nearestZip avail z))) := by
  intro req
  induction req with
  | nil => intro acc1 acc2 _ _; simp
  | cons z rest ih =>
    intro acc1 acc2 hnodup hkeys
    rcases List.nodup_cons.mp hnodup with ⟨hzr, hnd⟩
    rw [List.foldl_cons]
    by_cases hne : nearestZip avail z ≠ z
    · have hdict : dictInsert z (some (nearestZip avail z)) acc2 =
          acc2 ++ [(z, some (nearestZip avail z))] :=
        dictInsert_append _ _ _
          (fun p hp => fun hcon => hkeys p hp (hcon ▸ List.mem_cons_self _ _))
      simp only [resolveStep, if_pos hne, hdict]
      rw [ih (acc1 ++ [nearestZip avail z]) (acc2 ++ [(z, some (nearestZip avail z))])
        hnd ?keys]
      case keys =>
        intro p hp
        rcases List.mem_append.mp hp with hp2 | hp2
        · exact fun hm => hkeys p hp2 (List.mem_cons_of_mem _ hm)
        · rcases List.mem_singleton.mp hp2 with rfl
          exact hzr
      rw [List.filter_cons_of_pos (by simpa using hne)]
      simp
    · simp only [resolveStep, if_neg hne]
      rw [ih (acc1 ++ [nearestZip avail z]) acc2 hnd
        (fun p hp => fun hm => hkeys p hp (List.mem_cons_of_mem _ hm))]
      rw [List.filter_cons_of_neg (by simpa using hne)]

theorem resolve_fst_eq {avail : List String} (h : avail ≠ []) (req : List String) :
    (resolve_zip_fallbacks req avail).1 =
      dedupFirst (req.map (fun z => nearestZip avail z)) := by
  rw [resolve_zip_fallbacks, if_neg (by simpa [List.isEmpty_iff] using h)]
  dsimp only
  rw [resolve_fold_fst]
  simp

theorem resolve_snd_eq {avail : List String} (h : avail ≠ []) (req : List String)
    (hnodup : req.Nodup) :
    (resolve_zip_fallbacks req avail).2 =
      (req.filter (fun z => nearestZip avail z ≠ z)).map
        (fun z => (z, some (nearestZip avail z))) := by
  rw [resolve_zip_fallbacks, if_neg (by simpa [List.isEmpty_iff] using h)]
  dsimp only
  rw [resolve_fold_snd avail req [] [] hnodup (by simp)]
  simp

theorem sortStrings_eq_nil_iff {l : List String} : sortStrings l = [] ↔ l = [] := by
  constructor
  · intro h
    have := sortStrings_perm l
    rw [h] at this
    exact this.symm.eq_nil
  · intro h; subst h; rfl

theorem availableZips_ne_nil {df : List Record} (h : df ≠ []) :
    availableZips df ≠ [] := by
  intro hcon
  rw [availableZips, sortStrings_eq_nil_iff, dedupFirst_eq_nil_iff] at hcon
  cases df with
  | nil => exact h rfl
  | cons r t => simp at hcon

theorem filter_zip_isEmpty_false {df : List Record} {z : String}
    (h : z ∈ availableZips df) :
    (df.filter (fun r => zipcodeStr r = z)).isEmpty = false := by
  obtain ⟨r, hr, hzr⟩ := mem_availableZips.mp h
  rw [List.isEmpty_eq_false]
  exact List.ne_nil_of_mem (List.mem_filter.mpr ⟨hr, by simp [hzr]⟩)

theorem stage2_fold_fst_spec (df : List Record) (colored : List String) :
    ∀ (l : List String) (acc : List String × List (String × String)),
      (∀ z ∈ l, (df.filter (fun r => zipcodeStr r = z)).isEmpty = false) →
      ∃ app : List String,
        (l.foldl (zipStage2Step df colored) acc).1 = acc.1 ++ app ∧
        app.length = l.length ∧
        ∀ x ∈ app, x ∈ l ∨ (colored ≠ [] ∧ x ∈ colored) := by
  intro l
  induction l with
  | nil =>
    intro acc _
    exact ⟨[], by simp, rfl, by simp⟩
  | cons z rest ih =>
    intro acc hl
    rw [List.foldl_cons]
    have hz := hl z (List.mem_cons_self _ _)
    have hrest : ∀ y ∈ rest, (df.filter (fun r => zipcodeStr r = y)).isEmpty = false :=
      fun y hy => hl y (List.mem_cons_of_mem _ hy)
    by_cases hany : (df.filter (fun r => zipcodeStr r = z)).any isColored = true
    · obtain ⟨app, happ, hlen, hmem⟩ :=
        ih (zipStage2Step df colored acc z) hrest
      refine ⟨z :: app, ?_, by simp [hlen], ?_⟩
      · rw [happ]
        simp only [zipStage2Step, hz, hany, Bool.false_eq_true, if_false, if_true]
        simp
      · intro x hx
        rcases List.mem_cons.mp hx with rfl | hx2
        · exact Or.inl (List.mem_cons_self _ _)
        · rcases hmem x hx2 with h1 | h1
          · exact Or.inl (List.mem_cons_of_mem _ h1)
          · exact Or.inr h1
    · by_cases hce : colored.isEmpty = true
      · obtain ⟨app, happ, hlen, hmem⟩ :=
          ih (zipStage2Step df colored acc z) hrest
        refine ⟨z :: app, ?_, by simp [hlen], ?_⟩
        · rw [happ]
          simp only [zipStage2Step, hz, hany, hce, Bool.false_eq_true, if_false,
            if_true, ite_true, ite_false]
          simp
        · intro x hx
          rcases List.mem_cons.mp hx with rfl | hx2
          · exact Or.inl (List.mem_cons_self _ _)
          · rcases hmem x hx2 with h1 | h1
            · exact Or.inl (List.mem_cons_of_mem _ h1)
            · exact Or.inr h1
      · obtain ⟨app, happ, hlen, hmem⟩ :=
          ih (zipStage2Step df colored acc z) hrest
        have hcol : colored ≠ [] := by
          intro hcon
          rw [hcon] at hce
          exact hce rfl
        refine ⟨nearestZip colored z :: app, ?_, by simp [hlen], ?_⟩
        · rw [happ]
          simp only [zipStage2Step, hz, hany, hce, Bool.false_eq_true, if_false,
            ite_false]
          simp
        · intro x hx
          rcases List.mem_cons.mp hx with rfl | hx2
          · exact Or.inr ⟨hcol, nearestZip_mem colored z hcol⟩
          · rcases hmem x hx2 with h1 | h1
            · exact Or.inl (List.mem_cons_of_mem _ h1)
            · exact Or.inr h1

/-! ## C5: the not-found notices -/

/-- C5 counterexample: two distinct unresolved tokens (10098 and 10099
against available ZIPs 10001, 10002 and 10027) produce a single
aggregated notice, not one notice per token, and its text is not of the
claimed per-token form listing the token, the words not found, and the
substitute. -/
theorem zip_notice_counterexample :
    (filter_for_zip_mode exampleDf ["10098", "10099"]).2 =
      [("ZIP not found. Using closest available ZIP instead: 10098 → 10027, 10099 → 10027")] ∧
    (filter_for_zip_mode exampleDf ["10098", "10099"]).2.length ≠ 2 ∧
    (filter_for_zip_mode exampleDf ["10099"]).2 ≠ [("10099 not found, using 10027")] := by
  refine ⟨by decide, by decide, by decide⟩

theorem filterMap_pair_items (g : String → String) :
    ∀ u : List String,
      (u.map (fun z => (z, some (g z)))).filterMap
        (fun p => p.2.map (fun v => p.1 ++ (" → ") ++ v)) =
      u.map (fun z => z ++ (" → ") ++ g z) := by
  intro u
  induction u with
  | nil => rfl
  | cons a t ih => simp [List.filterMap_cons, ih]

/-- C5 (amended): ZIP resolution emits at most one aggregated not-found
notice per query — empty when every requested token resolves to itself,
otherwise a single string listing each distinct unresolved token once
(token, arrow, substitute), comma-separated, after the fixed not-found
prefix — followed by at most one notice about missing colored
properties. -/
theorem zip_not_found_notice_amended (df : List Record) (req : List String)
    (hav : availableZips df ≠ []) (hnodup : req.Nodup) :
    ∃ rest : List String,
      (filter_for_zip_mode df req).2 =
        (if (req.filter (fun z => nearestZip (availableZips df) z ≠ z)).isEmpty then
          ([] : List String)
         else
          [("ZIP not found. Using closest available ZIP instead: ") ++
            String.intercalate (", ")
              ((req.filter (fun z => nearestZip (availableZips df) z ≠ z)).map
                (fun z => z ++ (" → ") ++ nearestZip (availableZips df) z))]) ++ rest ∧
      rest.length ≤ 1 ∧
      (∀ m ∈ rest, ∃ tail : String,
        m = ("ZIP found but no colored properties (<1%). Using closest ZIP with colored properties: ") ++ tail) := by
  have hrepl := resolve_snd_eq hav req hnodup
  refine ⟨(if ((resolve_zip_fallbacks req (availableZips df)).1.foldl
      (zipStage2Step df (coloredZips df)) ([], [])).2.isEmpty then ([] : List String)
    else
      [("ZIP found but no colored properties (<1%). Using closest ZIP with colored properties: ") ++
        String.intercalate (", ")
          ((((resolve_zip_fallbacks req (availableZips df)).1.foldl
            (zipStage2Step df (coloredZips df)) ([], [])).2).map
              (fun p => p.1 ++ (" → ") ++ p.2))]), ?_, ?_, ?_⟩
  · rw [filter_for_zip_mode]
    rw [apply_ite Prod.snd]
    rw [ite_self]
    rw [hrepl, filterMap_pair_items]
    by_cases hu : (req.filter (fun z => nearestZip (availableZips df) z ≠ z)).isEmpty = true
    · have hunil : req.filter (fun z => nearestZip (availableZips df) z ≠ z) = [] :=
        List.isEmpty_iff.mp hu
      simp [hunil]
    · have hune : req.filter (fun z => nearestZip (availableZips df) z ≠ z) ≠ [] := by
        intro hcon
        exact hu (by rw [hcon]; rfl)
      rw [if_neg hu]
      have hmapne :
          (req.filter (fun z => nearestZip (availableZips df) z ≠ z)).map
            (fun z => (z, some (nearestZip (availableZips df) z))) ≠ [] := by
        intro hcon
        cases hfe : req.filter (fun z => nearestZip (availableZips df) z ≠ z) with
        | nil => exact hune hfe
        | cons a t => rw [hfe] at hcon; simp at hcon
      have hmape :
          ((req.filter (fun z => nearestZip (availableZips df) z ≠ z)).map
            (fun z => (z, some (nearestZip (availableZips df) z)))).isEmpty = false := by
        rw [List.isEmpty_eq_false]
        exact hmapne
      have hitems :
          ((req.filter (fun z => nearestZip (availableZips df) z ≠ z)).map
            (fun z => z ++ (" → ") ++ nearestZip (availableZips df) z)).isEmpty = false := by
        rw [List.isEmpty_eq_false]
        intro hcon
        cases hfe : req.filter (fun z => nearestZip (availableZips df) z ≠ z) with
        | nil => exact hune hfe
        | cons a t => rw [hfe] at hcon; simp at hcon
      rw [hmape, hitems]
      simp
  · by_cases hle : ((resolve_zip_fallbacks req (availableZips df)).1.foldl
        (zipStage2Step df (coloredZips df)) ([], [])).2.isEmpty = true
    · rw [if_pos hle]; simp
    · rw [if_neg hle]; simp
  · intro m hm
    by_cases hle : ((resolve_zip_fallbacks req (availableZips df)).1.foldl
        (zipStage2Step df (coloredZips df)) ([], [])).2.isEmpty = true
    · rw [if_pos hle] at hm
      exact absurd hm (List.not_mem_nil m)
    · rw [if_neg hle] at hm
      rcases List.mem_singleton.mp hm with rfl
      exact ⟨_, rfl⟩

/-- Witness for C5 (amended): the notice shape applied to the concrete
dataset and the single unresolved request 10099. -/
theorem zip_not_found_notice_amended_witness :
    (availableZips exampleDf ≠ []) ∧ (["10099"] : List String).Nodup ∧
    ∃ rest : List String,
      (filter_for_zip_mode exampleDf ["10099"]).2 =
        (if ((["10099"] : List String).filter
            (fun z => nearestZip (availableZips exampleDf) z ≠ z)).isEmpty then
          ([] : List String)
         else
          [("ZIP not found. Using closest available ZIP instead: ") ++
            String.intercalate (", ")
              (((["10099"] : List String).filter
                (fun z => nearestZip (availableZips exampleDf) z ≠ z)).map
                  (fun z => z ++ (" → ") ++ nearestZip (availableZips exampleDf) z))]) ++
          rest ∧
      rest.length ≤ 1 ∧
      (∀ m ∈ rest, ∃ tail : String,
        m = ("ZIP found but no colored properties (<1%). Using closest ZIP with colored properties: ") ++ tail) :=
  ⟨by decide, by decide,
   zip_not_found_notice_amended exampleDf ["10099"] (by decide) (by decide)⟩

/-! ## C10: ZIP-mode filtering of a non-empty dataset is non-empty -/

/-- C10: for a non-empty dataset and a non-empty request list, zip-mode
filtering returns a non-empty record subset: stage 1 maps every request
onto a ZIP present in the dataset and stage 2 only ever substitutes ZIPs
that have at least one record. -/
theorem filter_zip_mode_nonempty (df : List Record) (req : List String)
    (hdf : df ≠ []) (hreq : req ≠ []) :
    (filter_for_zip_mode df req).1 ≠ [] := by
  have hav : availableZips df ≠ [] := availableZips_ne_nil hdf
  have hres1 := resolve_fst_eq hav req
  have hsub : ∀ z ∈ (resolve_zip_fallbacks req (availableZips df)).1,
      z ∈ availableZips df := by
    intro z hz
    rw [hres1, mem_dedupFirst] at hz
    rcases List.mem_map.mp hz with ⟨w, _, rfl⟩
    exact nearestZip_mem _ _ hav
  have hinne : ∀ z ∈ (resolve_zip_fallbacks req (availableZips df)).1,
      (df.filter (fun r => zipcodeStr r = z)).isEmpty = false :=
    fun z hz => filter_zip_isEmpty_false (hsub z hz)
  obtain ⟨app, happ, hlen, hmem⟩ :=
    stage2_fold_fst_spec df (coloredZips df) _ ([], []) hinne
  have hresne : (resolve_zip_fallbacks req (availableZips df)).1 ≠ [] := by
    rw [hres1, Ne, dedupFirst_eq_nil_iff]
    cases req with
    | nil => exact absurd rfl hreq
    | cons a t => simp
  have happne : app ≠ [] := by
    intro hcon
    rw [hcon] at hlen
    simp only [List.length_nil] at hlen
    have hpos := List.length_pos.mpr hresne
    omega
  have hfinne : dedupFirst app ≠ [] := by
    rw [Ne, dedupFirst_eq_nil_iff]
    exact happne
  obtain ⟨zstar, hzstar⟩ := List.exists_mem_of_ne_nil _ hfinne
  have hzapp : zstar ∈ app := mem_dedupFirst.mp hzstar
  obtain ⟨r, hr, hzr⟩ : ∃ r ∈ df, zipcodeStr r = zstar := by
    rcases hmem zstar hzapp with h1 | ⟨_, h1⟩
    · exact mem_availableZips.mp (hsub zstar h1)
    · rcases mem_coloredZips.mp h1 with ⟨r, hrdf, _, hzr⟩
      exact ⟨r, hrdf, hzr⟩
  have hfe : (dedupFirst app).isEmpty = false := by
    rw [List.isEmpty_eq_false]
    exact hfinne
  rw [filter_for_zip_mode]
  rw [happ]
  simp only [List.nil_append, hfe, Bool.false_eq_true, if_false]
  have hcont : (dedupFirst app).contains (zipcodeStr r) = true := by
    rw [hzr]
    exact List.elem_iff.mpr hzstar
  exact List.ne_nil_of_mem (List.mem_filter.mpr ⟨hr, hcont⟩)

/-- Witness for C10: the non-emptiness applied to the concrete dataset
and the one-element request list holding 10099. -/
theorem filter_zip_mode_nonempty_witness :
    (exampleDf ≠ []) ∧ ((["10099"] : List String) ≠ []) ∧
    (filter_for_zip_mode exampleDf ["10099"]).1 ≠ [] :=
  ⟨by decide, by decide,
   filter_zip_mode_nonempty exampleDf ["10099"] (by decide) (by decide)⟩

/-! ## C6: ZIP tokenization -/

/-- C6 counterexample: tokenization does not split on semicolons (a
semicolon-joined pair collapses into one 10-digit token and is
discarded), and a short digit token is discarded rather than zero-padded
to 5 digits. -/
theorem parse_zip_tokens_counterexample :
    parse_zip_tokens ("10001;10002") = [] ∧
    parse_zip_tokens ("10001;10002") ≠ ["10001", "10002"] ∧
    parse_zip_tokens ("123") = [] ∧
    parse_zip_tokens ("123") ≠ ["00123"] := by
  refine ⟨by decide, by decide, by decide, by decide⟩

/-- C6 (amended): tokenization splits on comma and whitespace (not
semicolon), strips non-digit characters from each raw token, keeps only
tokens with exactly 5 digits remaining (no zero-padding), and collapses
duplicates preserving first-seen order — so every produced token is a
distinct 5-digit string. -/
theorem parse_zip_tokens_amended :
    (∀ q : String, (parse_zip_tokens q).Nodup ∧
      ∀ t ∈ parse_zip_tokens q,
        t.length = 5 ∧ (t.toList.all Char.isDigit) = true) ∧
    parse_zip_tokens ("10001, 10002 10001") = ["10001", "10002"] ∧
    parse_zip_tokens ("a10001b") = ["10001"] := by
  refine ⟨?_, by decide, by decide⟩
  intro q
  refine ⟨dedupFirst_nodup _, ?_⟩
  intro t ht
  rw [parse_zip_tokens, mem_dedupFirst] at ht
  rcases List.mem_filterMap.mp ht with ⟨u, _, hf⟩
  rw [keep5] at hf
  by_cases h5 : (digitsOnly u).length = 5
  · rw [if_pos h5] at hf
    cases hf
    refine ⟨h5, ?_⟩
    rw [List.all_eq_true]
    intro c hc
    have : c ∈ (u.toList.filter Char.isDigit) := hc
    exact (List.mem_filter.mp this).2
  · rw [if_neg h5] at hf
    cases hf

/-- Witness for C6 (amended): the shape facts applied to the concrete
token produced from the query 10001. -/
theorem parse_zip_tokens_amended_witness :
    ("10001" ∈ parse_zip_tokens ("10001")) ∧
    ("10001").length = 5 ∧ (("10001").toList.all Char.isDigit) = true :=
  ⟨by decide,
   (parse_zip_tokens_amended.1 ("10001")).2 ("10001") (by decide)⟩

/-! ## C7: list ranking -/

theorem insertDesc_perm (x : Record) (l : List Record) :
    (insertDesc x l).Perm (x :: l) := by
  induction l with
  | nil => rfl
  | cons y ys ih =>
    rw [insertDesc]
    split_ifs
    · exact List.Perm.refl _
    · exact (List.Perm.cons y ih).trans (List.Perm.swap x y ys)

theorem sortDesc_perm (l : List Record) : (sortDesc l).Perm l := by
  induction l with
  | nil => rfl
  | cons x xs ih =>
    rw [sortDesc]
    exact (insertDesc_perm x (sortDesc xs)).trans (List.Perm.cons x ih)

theorem insertDesc_sorted (x : Record) (l : List Record)
    (h : l.Pairwise (fun a b => impactKey b ≤ impactKey a)) :
    (insertDesc x l).Pairwise (fun a b => impactKey b ≤ impactKey a) := by
  induction l with
  | nil => simp [insertDesc]
  | cons y ys ih =>
    rw [insertDesc]
    rcases List.pairwise_cons.mp h with ⟨hy, hys⟩
    split_ifs with hxy
    · refine List.pairwise_cons.mpr ⟨?_, h⟩
      intro z hz
      rcases List.mem_cons.mp hz with rfl | hz2
      · exact hxy
      · exact le_trans (hy z hz2) hxy
    · refine List.pairwise_cons.mpr ⟨?_, ih hys⟩
      intro z hz
      have hz3 := (insertDesc_perm x ys).mem_iff.mp hz
      rcases List.mem_cons.mp hz3 with rfl | hz4
      · exact le_of_lt (lt_of_not_le hxy)
      · exact hy z hz4

theorem sortDesc_sorted (l : List Record) :
    (sortDesc l).Pairwise (fun a b => impactKey b ≤ impactKey a) := by
  induction l with
  | nil => simp [sortDesc]
  | cons x xs ih => exact insertDesc_sorted x (sortDesc xs) ih

theorem sortDesc_of_sorted (l : List Record)
    (h : l.Pairwise (fun a b => impactKey b ≤ impactKey a)) :
    sortDesc l = l := by
  induction l with
  | nil => rfl
  | cons x xs ih =>
    rcases List.pairwise_cons.mp h with ⟨hx, hxs⟩
    rw [sortDesc, ih hxs]
    cases xs with
    | nil => rfl
    | cons y ys =>
      rw [insertDesc, if_pos (hx y (List.mem_cons_self _ _))]

/-- C7: the top-10 ranking returns at most 10 items, ordered
non-increasingly by the impact metric (missing metric values are treated
as 0), and it is idempotent: re-ranking its own output returns the same
sequence. -/
theorem rankTop_props :
    (∀ records : List Record, (rankTop records 10).length ≤ 10) ∧
    (∀ records : List Record,
      (rankTop records 10).Pairwise (fun a b => impactKey b ≤ impactKey a)) ∧
    toNumFill0 RVal.missing = 0 ∧
    (∀ records : List Record, rankTop (rankTop records 10) 10 = rankTop records 10) := by
  have hsorted : ∀ records : List Record,
      (rankTop records 10).Pairwise (fun a b => impactKey b ≤ impactKey a) := by
    intro records
    exact (sortDesc_sorted records).sublist (List.take_sublist 10 _)
  refine ⟨?_, hsorted, rfl, ?_⟩
  · intro records
    rw [rankTop, List.length_take]
    exact min_le_left _ _
  · intro records
    rw [rankTop, sortDesc_of_sorted _ (hsorted records)]
    apply List.take_of_length_le
    rw [rankTop, List.length_take]
    exact min_le_left _ _

/-! ## C9: zoom heuristic is monotone and bounded -/

/-- C9: `zoom_from_span` is monotonically non-increasing in the span —
for spans `s1 ≤ s2` the zoom of `s2` is at most the zoom of `s1` — and
every returned zoom lies in the bounded range 11–16. -/
theorem zoom_from_span_monotone_bounded :
    (∀ s1 s2 : ℚ, s1 ≤ s2 → zoom_from_span s2 ≤ zoom_from_span s1) ∧
    (∀ s : ℚ, 11 ≤ zoom_from_span s ∧ zoom_from_span s ≤ 16) := by
  constructor
  · intro s1 s2 h
    unfold zoom_from_span
    split_ifs <;> first | (exfalso; linarith) | norm_num
  · intro s
    unfold zoom_from_span
    split_ifs <;> norm_num

/-- Witness for C9: the monotonicity applied to the concrete spans
`1/100 ≤ 1/4`. -/
theorem zoom_from_span_monotone_bounded_witness :
    (1 : ℚ)/100 ≤ 1/4 ∧ zoom_from_span (1/4) ≤ zoom_from_span (1/100) :=
  ⟨by norm_num, zoom_from_span_monotone_bounded.1 (1/100) (1/4) (by norm_num)⟩

/-! ## C4: colorizer buckets -/

/-- C4 counterexample: a NaN ratio does not yield the neutral gray
bucket — the NaN comparisons are all false, so it falls through to the
deep red (EXTREME) bucket. -/
theorem impact_to_color_nan_not_gray :
    impact_to_color RVal.nan = [180, 0, 0] ∧
    impact_to_color RVal.nan ≠ [200, 200, 200] := by
  constructor
  · rfl
  · decide

/-- C4 (amended): the colorizer assigns buckets by `percent = ratio×100`
with half-open `[low, high)` boundaries at 1, 30, 60, 100, 150 (a value
at a boundary falls in the higher bucket); a missing ratio (where
`float` raises) yields neutral gray, but a NaN ratio falls through every
comparison and yields deep red; bucket severity is monotonically
non-decreasing in the (numeric) ratio. -/
theorem impact_to_color_buckets :
    (impact_to_color RVal.missing = [200, 200, 200]) ∧
    (impact_to_color RVal.nan = [180, 0, 0]) ∧
    (∀ q : ℚ, q * 100 < 1 → impact_to_color (RVal.num q) = [200, 200, 200]) ∧
    (∀ q : ℚ, 1 ≤ q * 100 → q * 100 < 30 → impact_to_color (RVal.num q) = [0, 170, 0]) ∧
    (∀ q : ℚ, 30 ≤ q * 100 → q * 100 < 60 → impact_to_color (RVal.num q) = [245, 200, 0]) ∧
    (∀ q : ℚ, 60 ≤ q * 100 → q * 100 < 100 → impact_to_color (RVal.num q) = [255, 140, 0]) ∧
    (∀ q : ℚ, 100 ≤ q * 100 → q * 100 < 150 → impact_to_color (RVal.num q) = [255, 90, 90]) ∧
    (∀ q : ℚ, 150 ≤ q * 100 → impact_to_color (RVal.num q) = [180, 0, 0]) ∧
    (∀ q1 q2 : ℚ, q1 ≤ q2 →
      colorRank (impact_to_color (RVal.num q1)) ≤
        colorRank (impact_to_color (RVal.num q2))) := by
  refine ⟨rfl, rfl, ?_, ?_, ?_, ?_, ?_, ?_, ?_⟩
  · intro q h
    simp only [impact_to_color, pyFloat?, PyFloat.mulC, PyFloat.ltC, decide_eq_true_eq]
    split_ifs <;> first | rfl | (exfalso; linarith)
  · intro q h1 h2
    simp only [impact_to_color, pyFloat?, PyFloat.mulC, PyFloat.ltC, decide_eq_true_eq]
    split_ifs <;> first | rfl | (exfalso; linarith)
  · intro q h1 h2
    simp only [impact_to_color, pyFloat?, PyFloat.mulC, PyFloat.ltC, decide_eq_true_eq]
    split_ifs <;> first | rfl | (exfalso; linarith)
  · intro q h1 h2
    simp only [impact_to_color, pyFloat?, PyFloat.mulC, PyFloat.ltC, decide_eq_true_eq]
    split_ifs <;> first | rfl | (exfalso; linarith)
  · intro q h1 h2
    simp only [impact_to_color, pyFloat?, PyFloat.mulC, PyFloat.ltC, decide_eq_true_eq]
    split_ifs <;> first | rfl | (exfalso; linarith)
  · intro q h
    simp only [impact_to_color, pyFloat?, PyFloat.mulC, PyFloat.ltC, decide_eq_true_eq]
    split_ifs <;> first | rfl | (exfalso; linarith)
  · intro q1 q2 h
    simp only [impact_to_color, pyFloat?, PyFloat.mulC, PyFloat.ltC, decide_eq_true_eq]
    split_ifs <;> first | (exfalso; linarith) | decide

/-- Witness for C4 (amended): the gray bucket at ratio 0 and the
monotonicity between ratios 1/2 and 2. -/
theorem impact_to_color_buckets_witness :
    impact_to_color (RVal.num 0) = [200, 200, 200] ∧
    colorRank (impact_to_color (RVal.num (1/2))) ≤
      colorRank (impact_to_color (RVal.num 2)) :=
  ⟨impact_to_color_buckets.2.2.1 0 (by norm_num),
   impact_to_color_buckets.2.2.2.2.2.2.2.2 (1/2) 2 (by norm_num)⟩

/-! ## C8: selection with an invalid id is a no-op -/

/-- C8: `select_property` on a row with a null BBL (which `str` renders
as the placeholder text None), an empty BBL, or the literal placeholder
text N/A leaves the whole session state — selected id, view mode, and
map center — unchanged. -/
theorem select_property_invalid_id_noop (r : Record) (s : AppState)
    (h : r.bbl = none ∨ r.bbl = some (String.mk []) ∨ r.bbl = some ("N/A")) :
    select_property r s = s := by
  rcases h with h | h | h <;> simp [select_property, strOfOpt, h]

/-- Witness for C8: a concrete row keyed by the placeholder text N/A
leaves a concrete state unchanged. -/
theorem select_property_invalid_id_noop_witness :
    select_property ⟨some ("N/A"), "10001", RVal.missing, none⟩
      ⟨none, ViewMode.top10, ⟨0, 0, 12⟩⟩ =
      ⟨none, ViewMode.top10, ⟨0, 0, 12⟩⟩ :=
  select_property_invalid_id_noop _ _ (Or.inr (Or.inr rfl))

/-! ## C1: map click and list locate are the same selection -/

/-- C1: when the clicked BBL looks up (as the first match in the
dataset) the very row the list shows, the map-click path and the list
locate path produce identical resulting session state: both reduce to
the same `select_property` call. -/
theorem map_click_locate_agree (records : List Record) (r : Record) (s : AppState)
    (h : records.find? (fun x => strOfOpt x.bbl = strOfOpt r.bbl) = some r) :
    mapClickPath records (some (strOfOpt r.bbl)) s = listLocatePath r s := by
  simp only [mapClickPath, listLocatePath, h]

/-- Witness for C1: a concrete one-row dataset where both paths agree. -/
theorem map_click_locate_agree_witness :
    ([(⟨some ("1000010001"), "10001", RVal.num (1/2),
        some (Geom.polygon [[(-73, 40)]])⟩ : Record)].find?
      (fun x => strOfOpt x.bbl =
        strOfOpt (⟨some ("1000010001"), "10001", RVal.num (1/2),
          some (Geom.polygon [[(-73, 40)]])⟩ : Record).bbl) =
      some ⟨some ("1000010001"), "10001", RVal.num (1/2),
        some (Geom.polygon [[(-73, 40)]])⟩) ∧
    mapClickPath
      [(⟨some ("1000010001"), "10001", RVal.num (1/2),
        some (Geom.polygon [[(-73, 40)]])⟩ : Record)]
      (some (strOfOpt (some ("1000010001"))))
      ⟨none, ViewMode.top10, ⟨0, 0, 12⟩⟩ =
    listLocatePath
      (⟨some ("1000010001"), "10001", RVal.num (1/2),
        some (Geom.polygon [[(-73, 40)]])⟩ : Record)
      ⟨none, ViewMode.top10, ⟨0, 0, 12⟩⟩ :=
  ⟨by rfl,
   map_click_locate_agree
     [⟨some ("1000010001"), "10001", RVal.num (1/2), some (Geom.polygon [[(-73, 40)]])⟩]
     ⟨some ("1000010001"), "10001", RVal.num (1/2), some (Geom.polygon [[(-73, 40)]])⟩
     ⟨none, ViewMode.top10, ⟨0, 0, 12⟩⟩ (by rfl)⟩

end AirRights
